import Mathlib

/-!
Verification of the byte-level extraction core of `py-atom-unsaved-notes`.

The development shallowly embeds the functions of `src/utils.py`
(`normalize_text`, `is_internal_buffer`, `extract_buffer_grammars`,
`decode_varint_length`, `extract_buffers_by_id`) and the aggregation loop of
`src/cli.py` (`main`, the per-file merge of buffer texts and grammars).

Bytes are modelled as `Nat` (always `< 256` in practice), byte strings as
`List Nat`, decoded text as `List Char`, and Python `dict`s as association
lists with insert-overwrite semantics.  The regular expressions used by the
source are embedded as deterministic matchers; each matcher's doc comment
records why backtracking cannot produce a different match for that pattern.
-/

namespace AtomNotes

/-- Byte classes matched by `\s` in a Python `bytes` regular expression:
space, tab, newline, carriage return, form feed, vertical tab. -/
def isSpaceByte (b : Nat) : Bool :=
  b == 32 || b == 9 || b == 10 || b == 13 || b == 12 || b == 11

/-- Byte classes matched by `[a-f0-9]` (lowercase hex digits). -/
def isHexByte (b : Nat) : Bool :=
  (48 ≤ b && b ≤ 57) || (97 ≤ b && b ≤ 102)

/-- Byte classes matched by `[\s\x00-\x1f]` in the grammar pattern.
The union of `\s` = {9,10,11,12,13,32} and `\x00`–`\x1f` = 0..31 is
exactly the bytes `≤ 32`. -/
def isSepByte (b : Nat) : Bool :=
  b ≤ 32

/-- Byte classes matched by `[a-z0-9.\-]` in the grammar pattern. -/
def isTailByte (b : Nat) : Bool :=
  (97 ≤ b && b ≤ 122) || (48 ≤ b && b ≤ 57) || b == 46 || b == 45

/-- Index of the first occurrence of `pat` as a contiguous sublist of
`data`, as computed by Python's `bytes.find` / the `in` operator
(`none` models Python's `-1`). -/
def findSub {α : Type} [DecidableEq α] (pat : List α) : List α → Option Nat
  | [] => if pat.isPrefixOf ([] : List α) then some 0 else none
  | b :: rest =>
    if pat.isPrefixOf (b :: rest) then some 0
    else (findSub pat rest).map (· + 1)

/-- Embedding of `decode_varint_length` from `src/utils.py`: decode the
1-or-2-byte variable-length integer at `offset`, returning
`(length, bytes_consumed)`. -/
def decode_varint_length (data : List Nat) (offset : Nat) : Nat × Nat :=
  if data.length ≤ offset then (0, 0)
  else
    let first_byte := data.getD offset 0
    if first_byte < 128 then (first_byte, 1)
    else if data.length ≤ offset + 1 then (0, 0)
    else
      let second_byte := data.getD (offset + 1) 0
      (Nat.lor (Nat.land first_byte 0x7F) (Nat.shiftLeft second_byte 7), 2)

/-- Reference varint decoder, written following the specification's words:
out-of-bounds offset yields `(0, 0)`; a first byte with high bit clear
(value < 128) is itself the length, consuming 1 byte; with the high bit set,
a missing second byte yields `(0, 0)`, and otherwise the length combines the
low 7 bits of byte 1 with byte 2 shifted left 7 bits, consuming 2 bytes. -/
def refDecodeVarint (data : List Nat) (offset : Nat) : Nat × Nat :=
  if offset ≥ data.length then (0, 0)
  else if data.getD offset 0 < 128 then (data.getD offset 0, 1)
  else if 128 ≤ data.getD offset 0 ∧ offset + 1 ≥ data.length then (0, 0)
  else
    (Nat.lor (Nat.land (data.getD offset 0) 0x7F)
      (Nat.shiftLeft (data.getD (offset + 1) 0) 7), 2)

/-- UTF-8 continuation byte: `0x80`–`0xBF`. -/
def isContByte (b : Nat) : Bool :=
  128 ≤ b && b ≤ 191

/-- Admissible second byte of a multi-byte UTF-8 sequence with leading byte
`b1`, including the restricted ranges that exclude overlong encodings and
surrogates (`E0 A0–BF`, `ED 80–9F`, `F0 90–BF`, `F4 80–8F`). -/
def utf8Cont2Ok (b1 b2 : Nat) : Bool :=
  if b1 == 0xE0 then 0xA0 ≤ b2 && b2 ≤ 0xBF
  else if b1 == 0xED then 0x80 ≤ b2 && b2 ≤ 0x9F
  else if b1 == 0xF0 then 0x90 ≤ b2 && b2 ≤ 0xBF
  else if b1 == 0xF4 then 0x80 ≤ b2 && b2 ≤ 0x8F
  else isContByte b2

/-- Decode the valid UTF-8 sequence at the head of `l`, if any, returning
the code point and the number of bytes consumed (1–4). -/
def utf8Decode1 (l : List Nat) : Option (Nat × Nat) :=
  match l with
  | [] => none
  | b1 :: t1 =>
    if b1 < 0x80 then some (b1, 1)
    else if 0xC2 ≤ b1 && b1 ≤ 0xDF then
      match t1 with
      | b2 :: _ =>
        if isContByte b2 then some ((b1 - 0xC0) * 64 + (b2 - 0x80), 2) else none
      | [] => none
    else if 0xE0 ≤ b1 && b1 ≤ 0xEF then
      match t1 with
      | b2 :: b3 :: _ =>
        if utf8Cont2Ok b1 b2 && isContByte b3 then
          some ((b1 - 0xE0) * 4096 + (b2 - 0x80) * 64 + (b3 - 0x80), 3)
        else none
      | _ => none
    else if 0xF0 ≤ b1 && b1 ≤ 0xF4 then
      match t1 with
      | b2 :: b3 :: b4 :: _ =>
        if utf8Cont2Ok b1 b2 && isContByte b3 && isContByte b4 then
          some ((b1 - 0xF0) * 262144 + (b2 - 0x80) * 4096 + (b3 - 0x80) * 64 + (b4 - 0x80), 4)
        else none
      | _ => none
    else none

/-- Number of bytes consumed by the error handler at a malformed position:
the length of the maximal subpart of an ill-formed sequence (1–3), as in
CPython's UTF-8 decoder. -/
def utf8ErrLen (l : List Nat) : Nat :=
  match l with
  | [] => 0
  | b1 :: t1 =>
    if 0xE0 ≤ b1 && b1 ≤ 0xEF then
      match t1 with
      | b2 :: _ => if utf8Cont2Ok b1 b2 then 2 else 1
      | [] => 1
    else if 0xF0 ≤ b1 && b1 ≤ 0xF4 then
      match t1 with
      | b2 :: b3 :: _ =>
        if utf8Cont2Ok b1 b2 then (if isContByte b3 then 3 else 2) else 1
      | [b2] => if utf8Cont2Ok b1 b2 then 2 else 1
      | [] => 1
    else 1

/-- Embedding of Python `bytes.decode("utf-8", errors=...)` : decode `l` as
UTF-8; at each ill-formed position, if `repl = some r` the handler emits `r`
and skips the maximal subpart (the `replace` and `ignore` handlers), while
`repl = none` models the `strict` handler, which raises
`UnicodeDecodeError` (modelled as `Except.error`).  The `skip` counter
discards the continuation bytes already consumed by the previous sequence
(`utf8Decode1` only returns `k ∈ 1..4` and `utf8ErrLen` is `1..3` on a
non-empty list), keeping the recursion structural in the byte list. -/
def utf8DecodeAux (repl : Option (List Char)) :
    Nat → List Nat → Except Unit (List Char)
  | _, [] => Except.ok []
  | skip + 1, _ :: rest => utf8DecodeAux repl skip rest
  | 0, b :: rest =>
    match utf8Decode1 (b :: rest) with
    | some (cp, k) =>
      match utf8DecodeAux repl (k - 1) rest with
      | Except.ok t => Except.ok (Char.ofNat cp :: t)
      | Except.error e => Except.error e
    | none =>
      match repl with
      | some r =>
        match utf8DecodeAux repl (utf8ErrLen (b :: rest) - 1) rest with
        | Except.ok t => Except.ok (r ++ t)
        | Except.error e => Except.error e
      | none => Except.error ()

/-- Decode a whole byte string (no pending bytes to skip). -/
def utf8DecodeE (repl : Option (List Char)) (l : List Nat) :
    Except Unit (List Char) :=
  utf8DecodeAux repl 0 l

/-- Embedding of Python `bytes.decode("latin-1", errors=...)`: each byte maps
to the code point of the same value; total for every byte value. -/
def latin1Decode (l : List Nat) : List Char :=
  l.map Char.ofNat

/-- UTF-8 encoding of one character (Python `str.encode("utf-8")`,
per scalar value). -/
def utf8EncodeChar (c : Char) : List Nat :=
  let n := c.toNat
  if n < 0x80 then [n]
  else if n < 0x800 then [0xC0 + n / 64, 0x80 + n % 64]
  else if n < 0x10000 then [0xE0 + n / 4096, 0x80 + (n / 64) % 64, 0x80 + n % 64]
  else [0xF0 + n / 262144, 0x80 + (n / 4096) % 64, 0x80 + (n / 64) % 64, 0x80 + n % 64]

/-- UTF-8 encoding of a character sequence (Python `str.encode("utf-8")`). -/
def utf8Encode (s : List Char) : List Nat :=
  s.foldr (fun c acc => utf8EncodeChar c ++ acc) []

/-- Python `str.isspace` per character: the Unicode whitespace code points
(ASCII whitespace, `0x1C`–`0x1F`, NEL, NBSP, and the `Zs`/`Zl`/`Zp`
separators). -/
def pyIsSpace (c : Char) : Bool :=
  let n := c.toNat
  (9 ≤ n && n ≤ 13) || n == 32 || (28 ≤ n && n ≤ 31) || n == 0x85 || n == 0xA0 ||
  n == 0x1680 || (0x2000 ≤ n && n ≤ 0x200A) || n == 0x2028 || n == 0x2029 ||
  n == 0x202F || n == 0x205F || n == 0x3000

/-- Non-printable code points above the Latin-1 range, tabulated: the
`Zs`/`Zl`/`Zp` separators, the `Cf` format controls, the `Cs` surrogates and
the `Co` private-use ranges.  (Unassigned code points, category `Cn`, are
treated as printable here; no theorem below evaluates the predicate outside
the tabulated ranges.) -/
def nonPrintableHigh (n : Nat) : Bool :=
  n == 0xA0 || n == 0x1680 || (0x2000 ≤ n && n ≤ 0x200A) || n == 0x202F ||
  n == 0x205F || n == 0x3000 ||
  n == 0x2028 || n == 0x2029 ||
  n == 0xAD || (0x600 ≤ n && n ≤ 0x605) || n == 0x61C || n == 0x6DD ||
  n == 0x70F || n == 0x8E2 || n == 0x180E || (0x200B ≤ n && n ≤ 0x200F) ||
  (0x202A ≤ n && n ≤ 0x202E) || (0x2060 ≤ n && n ≤ 0x2064) ||
  (0x2066 ≤ n && n ≤ 0x206F) || n == 0xFEFF || (0xFFF9 ≤ n && n ≤ 0xFFFB) ||
  n == 0x110BD || n == 0x110CD || (0x1BCA0 ≤ n && n ≤ 0x1BCA3) ||
  (0x1D173 ≤ n && n ≤ 0x1D17A) || n == 0xE0001 || (0xE0020 ≤ n && n ≤ 0xE007F) ||
  (0xD800 ≤ n && n ≤ 0xDFFF) || (0xE000 ≤ n && n ≤ 0xF8FF) ||
  (0xF0000 ≤ n && n ≤ 0xFFFFD) || (0x100000 ≤ n && n ≤ 0x10FFFD)

/-- Python `str.isprintable` per character: false exactly on the separator,
control, format, surrogate and private-use categories, except that the ASCII
space is printable. -/
def pyIsPrintable (c : Char) : Bool :=
  let n := c.toNat
  if n == 32 then true
  else if n < 32 || (127 ≤ n && n ≤ 159) then false
  else !nonPrintableHigh n

/-- Python `str.strip()` with no argument: remove leading and trailing
whitespace characters (per `pyIsSpace`). -/
def pyStrip (s : List Char) : List Char :=
  ((s.dropWhile pyIsSpace).reverse.dropWhile pyIsSpace).reverse

/-- Characters kept by the normalisation filter in `normalize_text` and
`extract_buffers_by_id`: `c.isprintable() or c in "\n\t\r"`. -/
def keepChar (c : Char) : Bool :=
  pyIsPrintable c || c == '\n' || c == '\t' || c == '\r'

/-- Embedding of `normalize_text` from `src/utils.py`: decode the blob as
UTF-8 with the `replace` handler, falling back to latin-1 if that raises
`UnicodeDecodeError`; drop every character that is neither printable nor one
of newline/tab/carriage-return; strip leading and trailing whitespace. -/
def normalize_text (blob : List Nat) : List Char :=
  let text :=
    match utf8DecodeE (some [Char.ofNat 0xFFFD]) blob with
    | Except.ok t => t
    | Except.error _ => latin1Decode blob
  pyStrip (text.filter keepChar)

/-- The four marker substrings recognised by `is_internal_buffer`. -/
def internal_markers : List (List Char) :=
  ["deserializer".toList, "Workspace".toList,
   "packagesWithActiveGrammars".toList, "destroyedItemURIs".toList]

/-- Embedding of `is_internal_buffer` from `src/utils.py`: text of length
less than 10 (including empty text) is never internal; otherwise the first
200 characters of the first line are checked for any of the four internal
marker substrings. -/
def is_internal_buffer (text : List Char) : Bool :=
  if text.length < 10 then false
  else
    let first_line := (text.takeWhile (fun c => c ≠ '\n')).take 200
    internal_markers.any (fun m => (findSub m first_line).isSome)

/-- Python `dict` lookup (`m[x]`, `m.get(x)`, `x in m`): the first (for a
dict, only) binding of `x` in the association list. -/
def dictLookup {α β : Type} [DecidableEq α] (x : α) : List (α × β) → Option β
  | [] => none
  | (k, v) :: rest => if x = k then some v else dictLookup x rest

/-- Python `dict` assignment `m[k] = v` on an insertion-ordered association
list: overwrite the value in place if the key is present, else append. -/
def dictInsert {α β : Type} [DecidableEq α] :
    List (α × β) → α → β → List (α × β)
  | [], k, v => [(k, v)]
  | (k', v') :: rest, k, v =>
    if k' = k then (k, v) :: rest else (k', v') :: dictInsert rest k v

/-- Python `dict.update(m2)` on `m1`: assign every entry of `m2` into `m1`
in iteration order. -/
def dictUpdate {α β : Type} [DecidableEq α] (m1 m2 : List (α × β)) :
    List (α × β) :=
  m2.foldl (fun m p => dictInsert m p.1 p.2) m1

/-- Match of the grammar pattern
`([a-f0-9]{32})"[\s\x00-\x1f]{1,5}((?:text|source)\.[a-z0-9.\-]+)` at the
head of `data`, returning the two captures (id, grammar) and the remainder
of the buffer after the match.  The greedy `{1,5}` repetition is
deterministic here: separator bytes (`≤ 32`) are disjoint from `t`/`s`
(the only admissible next bytes), so the separator run consumed is the
maximal run, and backtracking to a shorter run always fails; likewise the
trailing `[a-z0-9.\-]+` is a maximal run with nothing following it in the
pattern. -/
def matchGrammarHere (data : List Nat) : Option ((List Nat × List Nat) × Nat) :=
  let cap1 := data.take 32
  if cap1.length = 32 && cap1.all isHexByte && (data.drop 32).take 1 = [34] then
    let rest := data.drop 33
    let run := (rest.takeWhile isSepByte).length
    if 1 ≤ run && run ≤ 5 then
      let after := rest.drop run
      let pre :=
        if [116, 101, 120, 116, 46].isPrefixOf after then
          some [116, 101, 120, 116, 46]
        else if [115, 111, 117, 114, 99, 101, 46].isPrefixOf after then
          some [115, 111, 117, 114, 99, 101, 46]
        else none
      match pre with
      | some p =>
        let tail := (after.drop p.length).takeWhile isTailByte
        if 1 ≤ tail.length then
          some ((cap1, p ++ tail), 33 + run + p.length + tail.length)
        else none
      | none => none
    else none
  else none

/-- All matches of the grammar pattern in `data`, scanned left to right and
non-overlapping, as `re.findall` produces them (each element is the pair of
captures (id, grammar)).  On a match of length `len` (always `≥ 34`) the
scan resumes after the match: the `skip` counter discards the remaining
`len - 1` matched positions, keeping the recursion structural. -/
def findGrammarMatchesAux : Nat → List Nat → List (List Nat × List Nat)
  | _, [] => []
  | skip + 1, _ :: rest => findGrammarMatchesAux skip rest
  | 0, b :: rest =>
    match matchGrammarHere (b :: rest) with
    | some (c, len) => c :: findGrammarMatchesAux (len - 1) rest
    | none => findGrammarMatchesAux 0 rest

/-- Scan a whole buffer for grammar matches. -/
def findGrammarMatches (data : List Nat) : List (List Nat × List Nat) :=
  findGrammarMatchesAux 0 data

/-- Embedding of `extract_buffer_grammars` from `src/utils.py`: run the
grammar pattern over the whole buffer and build an id→grammar dict, later
matches overwriting earlier ones. -/
def extract_buffer_grammars (data : List Nat) : List (List Nat × List Nat) :=
  (findGrammarMatches data).foldl (fun m p => dictInsert m p.1 p.2) []

/-- Match of the id-locator pattern `id"\s+([a-f0-9]{32})"` at the head of
`data`, returning the captured 32 hex bytes and the total match length
(`3 + run + 33`).  The greedy `\s+` is deterministic: whitespace bytes are
disjoint from the hex digits that must follow, so the run consumed is the
maximal whitespace run and backtracking to a shorter run always fails. -/
def matchIdHere (data : List Nat) : Option (List Nat × Nat) :=
  if [105, 100, 34].isPrefixOf data then
    let rest := data.drop 3
    let run := (rest.takeWhile isSpaceByte).length
    let after := rest.drop run
    let cap := after.take 32
    if 1 ≤ run ∧ cap.length = 32 ∧ cap.all isHexByte = true ∧
        (after.drop 32).take 1 = [34] then
      some (cap, 3 + run + 33)
    else none
  else none

/-- All captures of `re.findall(rb'id"\s+([a-f0-9]{32})"', data)`, scanned
left to right and non-overlapping.  On a match of length `len` (always
`≥ 37`) the scan resumes after the match: the `skip` counter discards the
remaining `len - 1` matched positions, keeping the recursion structural. -/
def findIdMatchesAux : Nat → List Nat → List (List Nat)
  | _, [] => []
  | skip + 1, _ :: rest => findIdMatchesAux skip rest
  | 0, b :: rest =>
    match matchIdHere (b :: rest) with
    | some (cap, len) => cap :: findIdMatchesAux (len - 1) rest
    | none => findIdMatchesAux 0 rest

/-- Scan a whole buffer for id captures. -/
def findIdMatches (data : List Nat) : List (List Nat) :=
  findIdMatchesAux 0 data

/-- Match of the per-identifier pattern `rb'id"\s+' + bid + rb'"'` at the
head of `data` (the pattern built by `extract_buffers_by_id` for a concrete
id).  Deterministic for the same reason as `matchIdHere`: the ids fed to it
are hex strings, disjoint from whitespace. -/
def matchIdAtWith (bid : List Nat) (data : List Nat) : Bool :=
  let rest := data.drop 3
  let run := (rest.takeWhile isSpaceByte).length
  [105, 100, 34].isPrefixOf data && decide (1 ≤ run) &&
    decide ((rest.drop run).take (bid.length + 1) = bid ++ [34])

/-- Position of the first match of the per-identifier pattern, as
`re.search(id_pattern, data)` computes it (`none` models a failed search). -/
def reSearchId (bid : List Nat) : List Nat → Option Nat
  | [] => none
  | b :: rest =>
    if matchIdAtWith bid (b :: rest) then some 0
    else (reSearchId bid rest).map (· + 1)

/-- Per-identifier body of the loop in `extract_buffers_by_id`
(src/utils.py): search for the id marker, take the 2000-byte window from
its position, locate `text"`, decode the varint length, bounds-check, slice
and normalise.  Every failure records empty text.  The final
decode/normalise step cannot raise (the `ignore` handler is total), so the
`except` arm of the source maps to the dead `Except.error` case. -/
def extractOne (data : List Nat) (bid : List Nat) : List Nat :=
  match reSearchId bid data with
  | none => []
  | some start_pos =>
    let search_window := (data.drop start_pos).take 2000
    match findSub [116, 101, 120, 116, 34] search_window with
    | none => []
    | some text_pos =>
      let length_offset := text_pos + 5
      if search_window.length ≤ length_offset then []
      else
        let tl := decode_varint_length search_window length_offset
        if tl.1 = 0 ∨ 10000 < tl.1 then []
        else
          let content_start := length_offset + tl.2
          let content_end := content_start + tl.1
          if search_window.length < content_end then []
          else
            let text_bytes := (search_window.drop content_start).take tl.1
            match utf8DecodeE (some []) text_bytes with
            | Except.ok text => utf8Encode (pyStrip (text.filter keepChar))
            | Except.error _ => []

/-- Embedding of `extract_buffers_by_id` from `src/utils.py`.  The Python
`set(re.findall(...))` is modelled by `List.dedup`; the set's iteration
order does not affect the resulting mapping, because distinct ids give
distinct keys and each key is assigned exactly once (ids are hex ASCII, so
the `bid.decode()` used for dict keys is injective and the keys stay byte
strings here). -/
def extract_buffers_by_id (data : List Nat) : List (List Nat × List Nat) :=
  (findIdMatches data).dedup.map (fun bid => (bid, extractOne data bid))

/-- Embedding of the text-merge loop of `main` (src/cli.py, lines 182–184):
for each `(bid, content)` of a per-file result, run
`if content or bid not in all_buffers: all_buffers[bid] = content`. -/
def mergeBuffers (all_buffers : List (List Nat × List Nat))
    (buffers : List (List Nat × List Nat)) : List (List Nat × List Nat) :=
  buffers.foldl
    (fun m p =>
      if p.2 ≠ [] ∨ dictLookup p.1 m = none then dictInsert m p.1 p.2 else m)
    all_buffers

theorem decode_varint_eq_ref (data : List Nat) (offset : Nat) :
    decode_varint_length data offset = refDecodeVarint data offset := by
  unfold decode_varint_length refDecodeVarint
  simp only [ge_iff_le, List.getD]
  split_ifs <;> first | rfl | omega

theorem dictLookup_dictInsert {α β : Type} [DecidableEq α]
    (m : List (α × β)) (k : α) (v : β) (x : α) :
    dictLookup x (dictInsert m k v) =
      if x = k then some v else dictLookup x m := by
  induction m with
  | nil => by_cases h : x = k <;> simp [dictInsert, dictLookup, h]
  | cons p rest ih =>
    rcases p with ⟨k', v'⟩
    simp only [dictInsert]
    by_cases h1 : k' = k
    · subst h1
      by_cases h2 : x = k' <;> simp [dictLookup, h2]
    · simp only [if_neg h1]
      by_cases h2 : x = k'
      · subst h2
        have hxk : ¬x = k := fun hh => h1 hh
        simp [dictLookup, hxk]
      · simp [dictLookup, h2, ih]

theorem dictLookup_eq_none_of_not_mem {α β : Type} [DecidableEq α]
    {m : List (α × β)} {x : α} (h : x ∉ m.map Prod.fst) :
    dictLookup x m = none := by
  induction m with
  | nil => rfl
  | cons p rest ih =>
    rcases p with ⟨k, v⟩
    simp only [List.map_cons, List.mem_cons, not_or] at h
    simp [dictLookup, h.1, ih h.2]

theorem keys_dictInsert {α β : Type} [DecidableEq α]
    (m : List (α × β)) (k : α) (v : β) :
    (dictInsert m k v).map Prod.fst =
      if k ∈ m.map Prod.fst then m.map Prod.fst
      else m.map Prod.fst ++ [k] := by
  induction m with
  | nil => simp [dictInsert]
  | cons p rest ih =>
    rcases p with ⟨k', v'⟩
    by_cases h1 : k' = k
    · subst h1; simp [dictInsert]
    · have h1' : ¬k = k' := fun hh => h1 hh.symm
      by_cases h2 : k ∈ rest.map Prod.fst <;>
        simp [dictInsert, h1, h1', h2, ih]

theorem nodup_keys_dictInsert {α β : Type} [DecidableEq α]
    {m : List (α × β)} (h : (m.map Prod.fst).Nodup) (k : α) (v : β) :
    ((dictInsert m k v).map Prod.fst).Nodup := by
  rw [keys_dictInsert]
  by_cases h2 : k ∈ m.map Prod.fst
  · simpa [h2] using h
  · simp only [h2, if_false]
    simpa [List.nodup_append, h2] using h

theorem nodup_keys_foldl_dictInsert {α β : Type} [DecidableEq α]
    (l : List (α × β)) (m0 : List (α × β)) (h : (m0.map Prod.fst).Nodup) :
    ((l.foldl (fun m p => dictInsert m p.1 p.2) m0).map Prod.fst).Nodup := by
  induction l generalizing m0 with
  | nil => exact h
  | cons p rest ih =>
    exact ih _ (nodup_keys_dictInsert h p.1 p.2)

theorem dictLookup_foldl_dictInsert {α β : Type} [DecidableEq α]
    (l : List (α × β)) (m0 : List (α × β)) (x : α) :
    dictLookup x (l.foldl (fun m p => dictInsert m p.1 p.2) m0) =
      match (l.filter (fun p => decide (p.1 = x))).getLast? with
      | some p => some p.2
      | none => dictLookup x m0 := by
  induction l generalizing m0 with
  | nil => rfl
  | cons p rest ih =>
    rcases p with ⟨k, v⟩
    rw [List.foldl_cons, ih]
    rcases hfilt : rest.filter (fun p => decide (p.1 = x)) with _ | ⟨q, qs⟩
    · rw [hfilt]
      by_cases h : k = x
      · subst h
        simp [List.filter_cons, hfilt, dictLookup_dictInsert]
      · have h' : ¬x = k := fun hh => h hh.symm
        simp [List.filter_cons, h, hfilt, dictLookup_dictInsert, h']
    · rw [hfilt]
      rcases hlast : (q :: qs).getLast? with _ | pl
      · rcases qs with _ | ⟨q2, qs2⟩
        · simp [List.getLast?] at hlast
        · rw [List.getLast?_cons_cons] at hlast
          exact absurd hlast (by
            have := List.getLast?_isSome (l := q2 :: qs2)
            intro hnone
            rw [hnone] at this
            simp at this)
      · by_cases h : k = x
        · subst h
          simp [List.filter_cons, hfilt, List.getLast?_cons_cons, hlast]
        · simp [List.filter_cons, h, hfilt, hlast]

theorem filter_key_eq_of_dictLookup {α β : Type} [DecidableEq α]
    {m : List (α × β)} (hnd : (m.map Prod.fst).Nodup) {x : α} {v : β}
    (h : dictLookup x m = some v) :
    m.filter (fun p => decide (p.1 = x)) = [(x, v)] := by
  induction m with
  | nil => simp [dictLookup] at h
  | cons p rest ih =>
    rcases p with ⟨k, w⟩
    simp only [List.map_cons, List.nodup_cons] at hnd
    by_cases hk : x = k
    · subst hk
      rw [dictLookup, if_pos rfl] at h
      have hw : w = v := by cases h; rfl
      subst hw
      have hnone : ∀ q ∈ rest, ¬(decide (q.1 = x)) = true := by
        intro q hq hbeq
        exact hnd.1 (by
          have hqx : q.1 = x := by simpa using hbeq
          rw [← hqx]
          exact List.mem_map_of_mem Prod.fst hq)
      simp [List.filter_cons, List.filter_eq_nil_iff.mpr hnone]
    · rw [dictLookup, if_neg hk] at h
      have hne2 : ¬k = x := fun hh => hk hh.symm
      simp [List.filter_cons, hne2, ih hnd.2 h]

theorem dictLookup_map_self {α β : Type} [DecidableEq α] {l : List α}
    (f : α → β) {x : α} (hx : x ∈ l) :
    dictLookup x (l.map (fun b => (b, f b))) = some (f x) := by
  induction l with
  | nil => cases hx
  | cons a rest ih =>
    simp only [List.map_cons]
    by_cases h : x = a
    · subst h; simp [dictLookup]
    · rcases List.mem_cons.mp hx with h2 | h2
      · exact absurd h2 h
      · simp [dictLookup, h, ih h2]

theorem dictLookup_mergeBuffers (m1 m2 : List (List Nat × List Nat))
    (x : List Nat) (hnd : (m2.map Prod.fst).Nodup) :
    dictLookup x (mergeBuffers m1 m2) =
      match dictLookup x m2 with
      | some v => if v = [] then some ((dictLookup x m1).getD v) else some v
      | none => dictLookup x m1 := by
  induction m2 generalizing m1 with
  | nil => rfl
  | cons p rest ih =>
    rcases p with ⟨k, v⟩
    simp only [List.map_cons, List.nodup_cons] at hnd
    obtain ⟨hknotin, hndrest⟩ := hnd
    have step : mergeBuffers m1 ((k, v) :: rest) =
        mergeBuffers
          (if v ≠ [] ∨ dictLookup k m1 = none then dictInsert m1 k v else m1)
          rest := rfl
    rw [step, ih _ hndrest]
    by_cases hx : x = k
    · subst hx
      have hrest : dictLookup x rest = none :=
        dictLookup_eq_none_of_not_mem hknotin
      rw [hrest]
      simp only [dictLookup, if_pos rfl]
      by_cases hv : v = []
      · subst hv
        simp only [ne_eq, not_true_eq_false, false_or]
        rcases hm1 : dictLookup x m1 with _ | a
        · simp [hm1, dictLookup_dictInsert]
        · simp [hm1]
      · simp [hv, dictLookup_dictInsert]
    · have hbase : dictLookup x
          (if v ≠ [] ∨ dictLookup k m1 = none then dictInsert m1 k v else m1) =
          dictLookup x m1 := by
        split_ifs with hc
        · rw [dictLookup_dictInsert]; simp [hx]
        · rfl
      rw [hbase]
      simp only [dictLookup, if_neg hx]

theorem findSub_of_isPrefixOf {α : Type} [DecidableEq α] {pat data : List α}
    (h : pat.isPrefixOf data = true) : findSub pat data = some 0 := by
  cases data <;> simp [findSub, h]

theorem findSub_append_head_notin {α : Type} [DecidableEq α]
    (a : α) (pt : List α) (pre suf : List α) (h : ∀ b ∈ pre, b ≠ a) :
    findSub (a :: pt) (pre ++ suf) =
      (findSub (a :: pt) suf).map (· + pre.length) := by
  induction pre with
  | nil =>
    simp only [List.nil_append, List.length_nil]
    rcases findSub (a :: pt) suf with _ | n <;> simp
  | cons c pre' ih =>
    have hca : c ≠ a := h c (by simp)
    have hbeq : (a == c) = false :=
      beq_eq_false_iff_ne.mpr (fun hh => hca hh.symm)
    have hpre : ((a :: pt).isPrefixOf (c :: (pre' ++ suf))) = false := by
      simp [List.isPrefixOf, hbeq]
    have hih := ih (fun b hb => h b (by simp [hb]))
    rw [List.cons_append, findSub, hpre]
    simp only [Bool.false_eq_true, if_false, hih]
    rcases findSub (a :: pt) suf with _ | n
    · simp
    · simp [List.length_cons]
      omega

theorem findSub_isSome_iff {α : Type} [DecidableEq α] (pat l : List α) :
    (findSub pat l).isSome = true ↔ ∃ pre post, l = pre ++ pat ++ post := by
  induction l with
  | nil =>
    constructor
    · intro h
      simp only [findSub] at h
      split_ifs at h with hp
      · have : pat <+: ([] : List α) := List.isPrefixOf_iff_prefix.mp hp
        have hpat : pat = [] := List.prefix_nil.mp this
        exact ⟨[], [], by simp [hpat]⟩
      · simp at h
    · rintro ⟨pre, post, hl⟩
      have h2 : (pre ++ pat) ++ post = [] := by simpa using hl.symm
      have h3 := List.append_eq_nil.mp h2
      have h4 := List.append_eq_nil.mp h3.1
      simp [findSub, h4.2, List.isPrefixOf]
  | cons b rest ih =>
    constructor
    · intro h
      rw [findSub] at h
      split_ifs at h with hp
      · have : pat <+: b :: rest := List.isPrefixOf_iff_prefix.mp hp
        rcases this with ⟨t, ht⟩
        exact ⟨[], t, by simp [← ht]⟩
      · have : (findSub pat rest).isSome = true := by
          rcases hf : findSub pat rest with _ | n
          · rw [hf] at h; simp at h
          · simp
        rcases ih.mp this with ⟨pre, post, hl⟩
        exact ⟨b :: pre, post, by simp [hl]⟩
    · rintro ⟨pre, post, hl⟩
      rw [findSub]
      rcases pre with _ | ⟨c, pre'⟩
      · have hp : pat.isPrefixOf (b :: rest) = true := by
          rw [ List.isPrefixOf_iff_prefix]
          exact ⟨post, by simpa using hl.symm⟩
        simp [hp]
      · simp only [List.cons_append] at hl
        have hrest : rest = pre' ++ pat ++ post := by
          injection hl with _ h2
        have : (findSub pat rest).isSome = true :=
          ih.mpr ⟨pre', post, hrest⟩
        split_ifs
        · simp
        · rcases hf : findSub pat rest with _ | n
          · rw [hf] at this; simp at this
          · simp

theorem decode_varint_append (pre l : List Nat) :
    decode_varint_length (pre ++ l) pre.length = decode_varint_length l 0 := by
  have h0 : (pre ++ l).getD pre.length 0 = l.getD 0 0 := by
    rw [List.getD_append_right pre l 0 pre.length le_rfl]
    simp
  have h1 : (pre ++ l).getD (pre.length + 1) 0 = l.getD 1 0 := by
    rw [List.getD_append_right pre l 0 (pre.length + 1) (by omega)]
    congr 1
    omega
  unfold decode_varint_length
  simp only [List.length_append, h0, h1, Nat.zero_add]
  split_ifs <;> first | rfl | omega

theorem utf8DecodeAux_some_ok (r : List Char) :
    ∀ (l : List Nat) (skip : Nat),
      ∃ t, utf8DecodeAux (some r) skip l = Except.ok t := by
  intro l
  induction l with
  | nil => intro skip; exact ⟨[], by cases skip <;> rfl⟩
  | cons b rest ih =>
    intro skip
    match skip with
    | skip' + 1 => exact ih skip'
    | 0 =>
      rcases hd : utf8Decode1 (b :: rest) with _ | ⟨cp, k⟩
      · obtain ⟨t, ht⟩ := ih (utf8ErrLen (b :: rest) - 1)
        exact ⟨r ++ t, by simp [utf8DecodeAux, hd, ht]⟩
      · obtain ⟨t, ht⟩ := ih (k - 1)
        exact ⟨Char.ofNat cp :: t, by simp [utf8DecodeAux, hd, ht]⟩

theorem prefix_head_eq {α : Type} {l₁ l₂ : List α}
    (h : l₁ <+: l₂) (hne : l₁ ≠ []) : l₂.head? = l₁.head? := by
  rcases h with ⟨t, ht⟩
  rcases l₁ with _ | ⟨c, l₁'⟩
  · exact absurd rfl hne
  · rw [← ht]; rfl

theorem pyStrip_mem {s : List Char} {c : Char} (h : c ∈ pyStrip s) : c ∈ s := by
  unfold pyStrip at h
  rw [List.mem_reverse] at h
  have h2 := (List.dropWhile_sublist pyIsSpace).subset h
  rw [List.mem_reverse] at h2
  exact (List.dropWhile_sublist pyIsSpace).subset h2

theorem pyStrip_head_not_space (s : List Char) {c : Char}
    (h : (pyStrip s).head? = some c) : pyIsSpace c = false := by
  unfold pyStrip at h
  by_cases hne : ((s.dropWhile pyIsSpace).reverse.dropWhile pyIsSpace).reverse = []
  · rw [hne] at h; simp at h
  · have hpref : ((s.dropWhile pyIsSpace).reverse.dropWhile pyIsSpace).reverse
        <+: s.dropWhile pyIsSpace := by
      have h0 : (s.dropWhile pyIsSpace).reverse.dropWhile pyIsSpace
          <:+ (s.dropWhile pyIsSpace).reverse := List.dropWhile_suffix pyIsSpace
      have h1 := List.reverse_prefix.mpr h0
      simpa using h1
    have hhead := prefix_head_eq hpref hne
    have := List.head?_dropWhile_not pyIsSpace s
    rw [hhead, h] at this
    exact this

theorem pyStrip_getLast_not_space (s : List Char) {c : Char}
    (h : (pyStrip s).getLast? = some c) : pyIsSpace c = false := by
  unfold pyStrip at h
  rw [List.getLast?_reverse] at h
  have := List.head?_dropWhile_not pyIsSpace (s.dropWhile pyIsSpace).reverse
  rw [h] at this
  exact this

theorem normalize_text_all_kept (blob : List Nat) {c : Char}
    (h : c ∈ normalize_text blob) : keepChar c = true := by
  unfold normalize_text at h
  have h2 := pyStrip_mem h
  exact (List.mem_filter.mp h2).2

theorem matchIdHere_matchIdAtWith {data cap : List Nat} {len : Nat}
    (h : matchIdHere data = some (cap, len)) : matchIdAtWith cap data = true := by
  simp only [matchIdHere] at h
  split_ifs at h with h1 h2
  · cases h
    obtain ⟨hrun, hlen32, hhex, hq⟩ := h2
    simp only [matchIdAtWith, Bool.and_eq_true, decide_eq_true_eq]
    refine ⟨⟨h1, hrun⟩, ?_⟩
    rw [hlen32, List.take_add, hq]

theorem findIdMatchesAux_skip :
    ∀ (l : List Nat) (skip : Nat),
      findIdMatchesAux skip l = findIdMatchesAux 0 (l.drop skip) := by
  intro l
  induction l with
  | nil => intro skip; cases skip <;> rfl
  | cons b rest ih =>
    intro skip
    match skip with
    | 0 => rfl
    | skip' + 1 => simpa using ih skip'

theorem reSearchId_isSome_cons {bid : List Nat} (b : Nat) {rest : List Nat}
    (h : (reSearchId bid rest).isSome = true) :
    (reSearchId bid (b :: rest)).isSome = true := by
  rw [reSearchId]
  split_ifs
  · simp
  · rcases hf : reSearchId bid rest with _ | n
    · rw [hf] at h; simp at h
    · simp

theorem reSearchId_isSome_of_match {bid l : List Nat}
    (h : matchIdAtWith bid l = true) : (reSearchId bid l).isSome = true := by
  cases l with
  | nil => simp [matchIdAtWith, List.isPrefixOf] at h
  | cons b rest =>
    rw [reSearchId]
    simp [h]

theorem mem_findIdMatchesAux_isSome :
    ∀ (l : List Nat) (skip : Nat) {bid : List Nat},
      bid ∈ findIdMatchesAux skip l → (reSearchId bid l).isSome = true := by
  intro l
  induction l with
  | nil =>
    intro skip bid h
    cases skip <;> simp [findIdMatchesAux] at h
  | cons b rest ih =>
    intro skip bid h
    match skip with
    | skip' + 1 =>
      exact reSearchId_isSome_cons b (ih skip' h)
    | 0 =>
      rcases hm : matchIdHere (b :: rest) with _ | ⟨cap, len⟩
      · rw [findIdMatchesAux, hm] at h
        exact reSearchId_isSome_cons b (ih 0 h)
      · rw [findIdMatchesAux, hm] at h
        rcases List.mem_cons.mp h with h2 | h2
        · subst h2
          exact reSearchId_isSome_of_match (matchIdHere_matchIdAtWith hm)
        · exact reSearchId_isSome_cons b (ih (len - 1) h2)

theorem hex_not_space {b : Nat} (h : isHexByte b = true) :
    isSpaceByte b = false := by
  simp only [isHexByte, Bool.or_eq_true, Bool.and_eq_true, decide_eq_true_eq] at h
  simp only [isSpaceByte, Bool.or_eq_false_iff, beq_eq_false_iff_ne, ne_eq]
  omega

theorem hex_ne_116 {b : Nat} (h : isHexByte b = true) : b ≠ 116 := by
  simp only [isHexByte, Bool.or_eq_true, Bool.and_eq_true, decide_eq_true_eq] at h
  omega

theorem c4_matchIdHere (c : Nat) (h' t : List Nat)
    (hlen : (c :: h').length = 32) (hhex : ∀ b ∈ c :: h', isHexByte b = true) :
    matchIdHere (105 :: 100 :: 34 :: 32 :: 32 :: ((c :: h') ++ 34 :: t)) =
      some (c :: h', 38) := by
  have hc : isSpaceByte c = false := hex_not_space (hhex c (by simp))
  have h32 : isSpaceByte 32 = true := rfl
  have htw : List.takeWhile isSpaceByte (32 :: 32 :: ((c :: h') ++ 34 :: t)) =
      [32, 32] := by
    simp [List.takeWhile_cons, h32, hc]
  have hpre : [105, 100, 34].isPrefixOf
      (105 :: 100 :: 34 :: 32 :: 32 :: ((c :: h') ++ 34 :: t)) = true := rfl
  have hdrop3 : (105 :: 100 :: 34 :: 32 :: 32 :: ((c :: h') ++ 34 :: t)).drop 3 =
      32 :: 32 :: ((c :: h') ++ 34 :: t) := rfl
  simp only [matchIdHere, hpre, if_true, hdrop3, htw, List.length_cons,
    List.length_nil]
  have hdrop2 : (32 :: 32 :: ((c :: h') ++ 34 :: t)).drop (0 + 1 + 1) =
      (c :: h') ++ 34 :: t := rfl
  rw [hdrop2, List.take_left' hlen, List.drop_left' hlen]
  rw [if_pos ⟨by norm_num, hlen, List.all_eq_true.mpr hhex, rfl⟩]

theorem c4_reSearchId (c : Nat) (h' t : List Nat)
    (hlen : (c :: h').length = 32) (hhex : ∀ b ∈ c :: h', isHexByte b = true) :
    reSearchId (c :: h') (105 :: 100 :: 34 :: 32 :: 32 :: ((c :: h') ++ 34 :: t)) =
      some 0 := by
  have hmatch := matchIdHere_matchIdAtWith (c4_matchIdHere c h' t hlen hhex)
  rw [reSearchId, if_pos hmatch]

theorem c4_findIdMatches (c : Nat) (h' : List Nat)
    (hlen : (c :: h').length = 32) (hhex : ∀ b ∈ c :: h', isHexByte b = true) :
    findIdMatches (105 :: 100 :: 34 :: 32 :: 32 ::
        ((c :: h') ++ 34 :: [116, 101, 120, 116, 34, 5, 72, 101, 108, 108, 111])) =
      [c :: h'] := by
  rw [findIdMatches, findIdMatchesAux,
    c4_matchIdHere c h' [116, 101, 120, 116, 34, 5, 72, 101, 108, 108, 111] hlen hhex]
  show (c :: h') :: findIdMatchesAux (38 - 1)
      (100 :: 34 :: 32 :: 32 ::
        ((c :: h') ++ 34 :: [116, 101, 120, 116, 34, 5, 72, 101, 108, 108, 111])) =
    [c :: h']
  rw [findIdMatchesAux_skip]
  have hrest : (100 :: 34 :: 32 :: 32 ::
      ((c :: h') ++ 34 :: [116, 101, 120, 116, 34, 5, 72, 101, 108, 108, 111])).drop
        (38 - 1) = [116, 101, 120, 116, 34, 5, 72, 101, 108, 108, 111] := by
    have hsplit : (100 :: 34 :: 32 :: 32 ::
        ((c :: h') ++ 34 :: [116, 101, 120, 116, 34, 5, 72, 101, 108, 108, 111])) =
        (100 :: 34 :: 32 :: 32 :: ((c :: h') ++ [34])) ++
          [116, 101, 120, 116, 34, 5, 72, 101, 108, 108, 111] := by
      simp
    rw [hsplit]
    have hlen' : h'.length = 31 := by simpa using hlen
    have hl : (100 :: 34 :: 32 :: 32 :: ((c :: h') ++ [34])).length = 38 - 1 := by
      simp [hlen']
    exact List.drop_left' hl
  rw [hrest]
  rfl

theorem c4_extractOne (c : Nat) (h' : List Nat)
    (hlen : (c :: h').length = 32) (hhex : ∀ b ∈ c :: h', isHexByte b = true) :
    extractOne (105 :: 100 :: 34 :: 32 :: 32 ::
        ((c :: h') ++ 34 :: [116, 101, 120, 116, 34, 5, 72, 101, 108, 108, 111]))
      (c :: h') = [72, 101, 108, 108, 111] := by
  have hlen' : h'.length = 31 := by simpa using hlen
  have hsearch := c4_reSearchId c h'
    [116, 101, 120, 116, 34, 5, 72, 101, 108, 108, 111] hlen hhex
  have hbig_len : (105 :: 100 :: 34 :: 32 :: 32 ::
      ((c :: h') ++ 34 :: [116, 101, 120, 116, 34, 5, 72, 101, 108, 108, 111])).length
      = 49 := by simp [hlen']
  have hwin : ((105 :: 100 :: 34 :: 32 :: 32 ::
      ((c :: h') ++ 34 :: [116, 101, 120, 116, 34, 5, 72, 101, 108, 108, 111])).drop
        0).take 2000 =
      105 :: 100 :: 34 :: 32 :: 32 ::
        ((c :: h') ++ 34 :: [116, 101, 120, 116, 34, 5, 72, 101, 108, 108, 111]) := by
    rw [List.drop_zero]
    exact List.take_of_length_le (by rw [hbig_len]; norm_num)
  have hnotin : ∀ b ∈ 105 :: 100 :: 34 :: 32 :: 32 :: ((c :: h') ++ [34]),
      b ≠ 116 := by
    intro b hb
    simp only [List.mem_cons, List.mem_append, List.mem_singleton] at hb
    rcases hb with rfl | rfl | rfl | rfl | rfl | hb | hb
    · norm_num
    · norm_num
    · norm_num
    · norm_num
    · norm_num
    · exact hex_ne_116 (hhex b (List.mem_cons.mpr hb))
    · rcases hb with rfl | hb
      · norm_num
      · cases hb
  have hfind : findSub [116, 101, 120, 116, 34]
      (105 :: 100 :: 34 :: 32 :: 32 ::
        ((c :: h') ++ 34 :: [116, 101, 120, 116, 34, 5, 72, 101, 108, 108, 111])) =
      some 38 := by
    have hsplit : (105 :: 100 :: 34 :: 32 :: 32 ::
        ((c :: h') ++ 34 :: [116, 101, 120, 116, 34, 5, 72, 101, 108, 108, 111])) =
        (105 :: 100 :: 34 :: 32 :: 32 :: ((c :: h') ++ [34])) ++
          [116, 101, 120, 116, 34, 5, 72, 101, 108, 108, 111] := by simp
    rw [hsplit, findSub_append_head_notin 116 [101, 120, 116, 34] _ _ hnotin]
    rw [@findSub_of_isPrefixOf Nat _ [116, 101, 120, 116, 34]
      [116, 101, 120, 116, 34, 5, 72, 101, 108, 108, 111] (by decide)]
    simp [hlen']
  have hdec : decode_varint_length
      (105 :: 100 :: 34 :: 32 :: 32 ::
        ((c :: h') ++ 34 :: [116, 101, 120, 116, 34, 5, 72, 101, 108, 108, 111]))
      (38 + 5) = (5, 1) := by
    have hsplit : (105 :: 100 :: 34 :: 32 :: 32 ::
        ((c :: h') ++ 34 :: [116, 101, 120, 116, 34, 5, 72, 101, 108, 108, 111])) =
        (105 :: 100 :: 34 :: 32 :: 32 :: ((c :: h') ++ [34, 116, 101, 120, 116, 34])) ++
          [5, 72, 101, 108, 108, 111] := by simp
    have hl43 : (105 :: 100 :: 34 :: 32 :: 32 ::
        ((c :: h') ++ [34, 116, 101, 120, 116, 34])).length = 38 + 5 := by
      simp [hlen']
    rw [hsplit, ← hl43, decode_varint_append]
    rfl
  have htb : ((h' ++ [34, 116, 101, 120, 116, 34, 5, 72, 101, 108, 108, 111]).drop
        38).take 5 = [72, 101, 108, 108, 111] := by
    have hsplit : h' ++ [34, 116, 101, 120, 116, 34, 5, 72, 101, 108, 108, 111] =
        (h' ++ [34, 116, 101, 120, 116, 34, 5]) ++ [72, 101, 108, 108, 111] := by
      simp
    have hl38 : (h' ++ [34, 116, 101, 120, 116, 34, 5]).length = 38 := by
      simp [hlen']
    rw [hsplit, List.drop_left' hl38]
    rfl
  simp only [extractOne, hsearch, hwin, hfind, hdec, hbig_len]
  norm_num
  rw [htb]
  rfl

theorem extractOne_empty_of_failure (data bid : List Nat)
    (start_pos text_pos : Nat)
    (hsearch : reSearchId bid data = some start_pos)
    (hfind : findSub [116, 101, 120, 116, 34] ((data.drop start_pos).take 2000) =
      some text_pos)
    (hfail :
      (decode_varint_length ((data.drop start_pos).take 2000) (text_pos + 5)).1 = 0 ∨
      10000 <
        (decode_varint_length ((data.drop start_pos).take 2000) (text_pos + 5)).1 ∨
      ((data.drop start_pos).take 2000).length <
        text_pos + 5 +
          (decode_varint_length ((data.drop start_pos).take 2000) (text_pos + 5)).2 +
          (decode_varint_length ((data.drop start_pos).take 2000) (text_pos + 5)).1) :
    extractOne data bid = [] := by
  simp only [extractOne, hsearch, hfind]
  by_cases h1 : ((data.drop start_pos).take 2000).length ≤ text_pos + 5
  · rw [if_pos h1]
  · rw [if_neg h1]
    by_cases h2 :
        (decode_varint_length ((data.drop start_pos).take 2000) (text_pos + 5)).1 = 0 ∨
        10000 <
          (decode_varint_length ((data.drop start_pos).take 2000) (text_pos + 5)).1
    · rw [if_pos h2]
    · rw [if_neg h2]
      rw [if_pos ?hc]
      case hc =>
        rcases hfail with hf | hf | hf
        · exact absurd (Or.inl hf) h2
        · exact absurd (Or.inr hf) h2
        · omega

theorem dictLookup_extract_buffers (data bid : List Nat)
    (h : bid ∈ findIdMatches data) :
    dictLookup bid (extract_buffers_by_id data) = some (extractOne data bid) := by
  unfold extract_buffers_by_id
  exact dictLookup_map_self _ (List.mem_dedup.mpr h)

/-- Claim C1 (counterexample): the text merge does NOT leave a non-empty
running value untouched by later files.  With one id (32 × `a`) extracted
as the non-empty text `A` (byte 65) by the first file and the non-empty
text `B` (byte 66) by the second, the running entry after the first merge
is `A`, and merging the second file replaces it with `B` — a later file's
extraction changed a non-empty running value. -/
theorem merge_text_nonempty_overwritten_cex :
    dictLookup (List.replicate 32 97)
        (mergeBuffers [] [(List.replicate 32 97, [65])]) = some [65] ∧
    dictLookup (List.replicate 32 97)
        (mergeBuffers (mergeBuffers [] [(List.replicate 32 97, [65])])
          [(List.replicate 32 97, [66])]) = some [66] ∧
    ([66] : List Nat) ≠ [65] := by
  refine ⟨by decide, by decide, by decide⟩

/-- Claim C1 (amended): in the aggregator's text merge, a buffer id's
running entry is kept only when the new value is empty and the id is
already present; a non-empty new value always overwrites (also a non-empty
running value), and an absent id is always inserted.  Formally, merging one
file's map `m2` (which has distinct keys, as any Python dict does) into the
running map `m1` gives, for each id: the new value if it is non-empty; the
old value if the new one is empty and an old one exists; the new (empty)
value if the id was absent; the old binding if `m2` does not mention it.
Consequently processing order can affect the final text as well as the
final grammar when two files extract different non-empty texts. -/
theorem merge_text_overwrite_rule (m1 m2 : List (List Nat × List Nat))
    (x : List Nat) (hnd : (m2.map Prod.fst).Nodup) :
    dictLookup x (mergeBuffers m1 m2) =
      match dictLookup x m2 with
      | some v => if v = [] then some ((dictLookup x m1).getD v) else some v
      | none => dictLookup x m1 :=
  dictLookup_mergeBuffers m1 m2 x hnd

theorem merge_text_overwrite_rule_witness :
    dictLookup (List.replicate 32 97)
        (mergeBuffers [(List.replicate 32 97, [65])]
          [(List.replicate 32 97, [66])]) = some [66] := by
  rw [merge_text_overwrite_rule [(List.replicate 32 97, [65])]
    [(List.replicate 32 97, [66])] (List.replicate 32 97) (by decide)]
  decide

/-- Claim C2: `decode_varint_length` equals the reference decoder written
from the specification (out-of-bounds ↦ `(0,0)`; first byte `< 128` is the
length, 1 byte consumed; high bit set with no second byte ↦ `(0,0)`;
otherwise `(b1 &&& 0x7F) ||| (b2 <<< 7)` with 2 bytes consumed), and on
`[0x83, 0x01]` at offset 0 it returns `(131, 2)`. -/
theorem decode_varint_length_spec :
    (∀ data offset, decode_varint_length data offset = refDecodeVarint data offset) ∧
    decode_varint_length [0x83, 0x01] 0 = (131, 2) :=
  ⟨decode_varint_eq_ref, by decide⟩

/-- Claim C3: for every buffer and every identifier located in it, whenever
the varint decode at the `text"` marker fails (`(0,0)` makes the decoded
length 0), or the decoded length is 0 or greater than 10000, or the slice
of exactly that many bytes after the consumed length prefix would extend
past the end of the 2000-byte window, the extractor's map binds that
identifier to empty text — never a partial or truncated payload. -/
theorem payload_failure_yields_empty (data bid : List Nat)
    (start_pos text_pos : Nat)
    (hmem : bid ∈ findIdMatches data)
    (hsearch : reSearchId bid data = some start_pos)
    (hfind : findSub [116, 101, 120, 116, 34] ((data.drop start_pos).take 2000) =
      some text_pos)
    (hfail :
      (decode_varint_length ((data.drop start_pos).take 2000) (text_pos + 5)).1 = 0 ∨
      10000 <
        (decode_varint_length ((data.drop start_pos).take 2000) (text_pos + 5)).1 ∨
      ((data.drop start_pos).take 2000).length <
        text_pos + 5 +
          (decode_varint_length ((data.drop start_pos).take 2000) (text_pos + 5)).2 +
          (decode_varint_length ((data.drop start_pos).take 2000) (text_pos + 5)).1) :
    dictLookup bid (extract_buffers_by_id data) = some [] := by
  rw [dictLookup_extract_buffers data bid hmem,
    extractOne_empty_of_failure data bid start_pos text_pos hsearch hfind hfail]

theorem payload_failure_yields_empty_witness :
    dictLookup (List.replicate 32 97) (extract_buffers_by_id
      ([105, 100, 34, 32, 32] ++ List.replicate 32 97 ++
        [34, 116, 101, 120, 116, 34, 145, 78])) = some [] :=
  payload_failure_yields_empty
    ([105, 100, 34, 32, 32] ++ List.replicate 32 97 ++
      [34, 116, 101, 120, 116, 34, 145, 78])
    (List.replicate 32 97) 0 38 (by decide) (by decide) (by decide) (by decide)

/-- Claim C4: for every 32-character lowercase-hex identifier `h`, the
extractor applied to the bytes `id"␣␣<h>"text"\x05Hello` (`105 100 34` =
`id"`, two spaces, the id, `34` = `"`, `116 101 120 116 34` = `text"`, the
length byte 5, then `72 101 108 108 111` = `Hello`) yields exactly the map
binding `h` to the UTF-8 bytes of `"Hello"`. -/
theorem payload_example_hello (h : List Nat) (hlen : h.length = 32)
    (hhex : ∀ b ∈ h, isHexByte b = true) :
    extract_buffers_by_id ([105, 100, 34, 32, 32] ++ h ++
        [34, 116, 101, 120, 116, 34, 5, 72, 101, 108, 108, 111]) =
      [(h, [72, 101, 108, 108, 111])] := by
  rcases h with _ | ⟨c, h'⟩
  · simp at hlen
  · have hbig : [105, 100, 34, 32, 32] ++ (c :: h') ++
        [34, 116, 101, 120, 116, 34, 5, 72, 101, 108, 108, 111] =
        105 :: 100 :: 34 :: 32 :: 32 ::
          ((c :: h') ++ 34 :: [116, 101, 120, 116, 34, 5, 72, 101, 108, 108, 111]) := by
      simp
    rw [hbig]
    unfold extract_buffers_by_id
    rw [c4_findIdMatches c h' hlen hhex]
    have hded : [c :: h'].dedup = [c :: h'] := by
      simp [List.dedup_cons_of_not_mem]
    rw [hded, List.map_singleton, c4_extractOne c h' hlen hhex]

theorem payload_example_hello_witness :
    extract_buffers_by_id ([105, 100, 34, 32, 32] ++ List.replicate 32 97 ++
        [34, 116, 101, 120, 116, 34, 5, 72, 101, 108, 108, 111]) =
      [(List.replicate 32 97, [72, 101, 108, 108, 111])] :=
  payload_example_hello (List.replicate 32 97) (by decide) (by decide)

/-- Claim C5: grammar merging is unconditionally last-write-wins at both
levels.  Within one buffer, the grammar map binds each id to the grammar of
the last (rightmost) match of the grammar pattern for that id; across
files, `dict.update` makes the later-scanned file's grammar win whenever it
binds the id at all. -/
theorem grammar_last_write_wins :
    (∀ data gid, dictLookup gid (extract_buffer_grammars data) =
      (((findGrammarMatches data).filter
        (fun p => decide (p.1 = gid))).getLast?).map Prod.snd) ∧
    (∀ d1 d2 gid g, dictLookup gid (extract_buffer_grammars d2) = some g →
      dictLookup gid (dictUpdate (extract_buffer_grammars d1)
        (extract_buffer_grammars d2)) = some g) := by
  constructor
  · intro data gid
    unfold extract_buffer_grammars
    rw [dictLookup_foldl_dictInsert]
    rcases hlast : ((findGrammarMatches data).filter
        (fun p => decide (p.1 = gid))).getLast? with _ | p
    · rw [hlast]; rfl
    · rw [hlast]; rfl
  · intro d1 d2 gid g hg
    have hnd2 : ((extract_buffer_grammars d2).map Prod.fst).Nodup := by
      unfold extract_buffer_grammars
      exact nodup_keys_foldl_dictInsert _ _ (by simp)
    have hfilt := filter_key_eq_of_dictLookup hnd2 hg
    unfold dictUpdate
    rw [dictLookup_foldl_dictInsert, hfilt]
    rfl

theorem grammar_last_write_wins_witness :
    dictLookup (List.replicate 32 97)
      (dictUpdate
        (extract_buffer_grammars (List.replicate 32 97 ++
          [34, 1, 115, 111, 117, 114, 99, 101, 46, 112, 121, 116, 104, 111, 110]))
        (extract_buffer_grammars (List.replicate 32 97 ++
          [34, 1, 115, 111, 117, 114, 99, 101, 46, 114, 117, 98, 121]))) =
      some [115, 111, 117, 114, 99, 101, 46, 114, 117, 98, 121] :=
  grammar_last_write_wins.2 _ _ _ _ (by decide)

/-- Claim C6: the text merge is order-independent in the
empty-versus-non-empty case: if one file's map gives id `x` empty text and
the other gives it non-empty text `t`, merging the two per-file maps into
an empty running map in either order yields `t` for `x` (empty never
replaces non-empty, non-empty always replaces empty). -/
theorem text_merge_order_independent
    (mA mB : List (List Nat × List Nat)) (x t : List Nat)
    (hndA : (mA.map Prod.fst).Nodup) (hndB : (mB.map Prod.fst).Nodup)
    (hA : dictLookup x mA = some []) (hB : dictLookup x mB = some t)
    (ht : t ≠ []) :
    dictLookup x (mergeBuffers (mergeBuffers [] mA) mB) = some t ∧
    dictLookup x (mergeBuffers (mergeBuffers [] mB) mA) = some t := by
  constructor
  · rw [dictLookup_mergeBuffers _ _ _ hndB, hB]
    simp [ht]
  · rw [dictLookup_mergeBuffers _ _ _ hndA, hA]
    rw [dictLookup_mergeBuffers _ _ _ hndB, hB]
    simp [ht]

theorem text_merge_order_independent_witness :
    dictLookup [97] (mergeBuffers (mergeBuffers [] [([97], [])])
      [([97], [104])]) = some [104] ∧
    dictLookup [97] (mergeBuffers (mergeBuffers [] [([97], [104])])
      [([97], [])]) = some [104] :=
  text_merge_order_independent [([97], [])] [([97], [104])] [97] [104]
    (by decide) (by decide) (by decide) (by decide) (by decide)

/-- Claim C7: for every input byte sequence, `normalize_text` returns (it
is total by construction) text in which every character is printable or
one of newline, tab, carriage return, and which has no leading or trailing
whitespace character. -/
theorem normalize_text_output_clean (blob : List Nat) :
    (∀ c ∈ normalize_text blob,
      pyIsPrintable c = true ∨ c = '\n' ∨ c = '\t' ∨ c = '\r') ∧
    (∀ c, (normalize_text blob).head? = some c → pyIsSpace c = false) ∧
    (∀ c, (normalize_text blob).getLast? = some c → pyIsSpace c = false) := by
  refine ⟨?_, ?_, ?_⟩
  · intro c hc
    have hk := normalize_text_all_kept blob hc
    simpa [keepChar, Bool.or_eq_true, beq_iff_eq, or_assoc] using hk
  · intro c hc
    simp only [normalize_text] at hc
    exact pyStrip_head_not_space _ hc
  · intro c hc
    simp only [normalize_text] at hc
    exact pyStrip_getLast_not_space _ hc

theorem normalize_text_output_clean_witness : pyIsSpace 'a' = false :=
  (normalize_text_output_clean [32, 97]).2.1 'a' (by decide)

/-- Claim C8: `is_internal_buffer text` is true if and only if `text` has
length at least 10 and the first 200 characters of its first line contain
one of the four marker substrings (`deserializer`, `Workspace`,
`packagesWithActiveGrammars`, `destroyedItemURIs`); in particular text
shorter than 10 characters is never classified internal. -/
theorem is_internal_buffer_spec (text : List Char) :
    is_internal_buffer text = true ↔
      10 ≤ text.length ∧ ∃ m ∈ internal_markers, ∃ pre post,
        (text.takeWhile (fun c => c ≠ '\n')).take 200 = pre ++ m ++ post := by
  simp only [is_internal_buffer]
  split_ifs with hshort
  · constructor
    · intro h; simp at h
    · rintro ⟨hlen, _⟩; omega
  · rw [List.any_eq_true]
    constructor
    · rintro ⟨m, hm, hfind⟩
      exact ⟨by omega, m, hm, (findSub_isSome_iff m _).mp hfind⟩
    · rintro ⟨hlen, m, hm, hdecomp⟩
      exact ⟨m, hm, (findSub_isSome_iff m _).mpr hdecomp⟩

theorem is_internal_buffer_spec_witness :
    is_internal_buffer ("packagesWithActiveGrammars: []".toList) = true :=
  (is_internal_buffer_spec _).mpr
    ⟨by decide, "packagesWithActiveGrammars".toList, by decide,
      [], ": []".toList, by decide⟩

/-- Claim C9: the fallback branch of `extract_buffers_by_id` for a missing
identifier match is unreachable: every id captured by the initial
`findall` over `id"\s+([a-f0-9]{32})"` is re-found by the subsequent
`re.search` for that concrete id, so the search never returns `none` for a
located id and the `no occurrence found` empty-text assignment never
executes. -/
theorem located_id_always_refound (data bid : List Nat)
    (h : bid ∈ findIdMatches data) : (reSearchId bid data).isSome = true :=
  mem_findIdMatchesAux_isSome data 0 h

theorem located_id_always_refound_witness :
    (reSearchId (List.replicate 32 98)
      ([105, 100, 34, 32, 32] ++ List.replicate 32 98 ++
        [34, 116, 101, 120, 116, 34, 5, 72, 101, 108, 108, 111])).isSome = true :=
  located_id_always_refound _ _ (by decide)

/-- Claim C10: decoding with UTF-8 and the `replace` handler never raises
`UnicodeDecodeError` — the decoder returns `Except.ok` on every input — so
`normalize_text` always follows the single UTF-8 path (filter then strip)
and the latin-1 fallback branch is unreachable. -/
theorem utf8_replace_total_fallback_dead (blob : List Nat) :
    ∃ t, utf8DecodeE (some [Char.ofNat 0xFFFD]) blob = Except.ok t ∧
      normalize_text blob = pyStrip (t.filter keepChar) := by
  obtain ⟨t, ht⟩ := utf8DecodeAux_some_ok [Char.ofNat 0xFFFD] blob 0
  exact ⟨t, ht, by simp [normalize_text, utf8DecodeE, ht]⟩

end AtomNotes
